import Mathlib

/-!
Shallow embedding of the pyars argument-binding engine.

The Python sources modelled here are the `container.py` / `argument_types.py`
stack (pre-validation, parsing pipeline, switch and command fields) together
with the `argument/` package variants (`argument/command.py`,
`argument/option.py`, `argument/flag.py`) where a claim cites them.
Each Lean definition carries a note naming the Python definition it embeds.
-/

namespace Pyars

/-- Python values as they occur in an `argparse.Namespace` and in constructed
container instances.  `vnone` is Python `None`; `inst` models an attrs
instance built by `cls(**kwargs)` (class name plus field values). -/
inductive Value where
  | vstr (s : String)
  | vnone
  | vbool (b : Bool)
  | vlist (xs : List String)
  | inst (cname : String) (fieldVals : List (String × Value))
deriving Repr

/-- A parsed namespace: a total map from destination key to stored value,
modelling `argparse.Namespace` attribute access (`getattr`). -/
abbrev NS := String → Value

/-- Embeds `ArgumentType.to_console_name`: replace every underscore with a
dash (`name.replace('_', '-')`, written as a character map since the
pattern is a single character). -/
def toConsoleName (s : String) : String :=
  ⟨s.data.map (fun ch => if ch = '_' then '-' else ch)⟩

/- Container declarations.  `ArgKind` is the relevant part of the
`ArgumentType` hierarchy: plain value fields (`ValueArgument`, whose
`extract` is the identity on the namespace value since its late converter is
`None`), switches (`SwitchArgument` with its `name`, `enable`, `disable`,
`default`, `env_var` settings) and sub-commands (`CommandArgument` with its
ordered `options` mapping).  A `Container` models an attrs class mixed with
`ArgumentContainer`: its `__name__` plus its declared fields in declaration
order. -/
mutual
inductive ArgKind where
  | value (envVar : Option String)
  | switch (swName : Option String) (enable disable : Bool) (dflt : Bool)
      (envVar : Option String)
  | command (opts : List (String × Container))

inductive Container where
  | mk (cname : String) (fields : List (String × ArgKind))
end

/-- Name of the container class (`cls.__name__`). -/
def Container.cname : Container → String
  | .mk n _ => n

/-- Declared fields of the container, in declaration order. -/
def Container.fields : Container → List (String × ArgKind)
  | .mk _ fs => fs

/-- Embeds Python `list.index` for an element known to be present: index of
the first occurrence. -/
def idxOf : List String → String → Nat
  | [], _ => 0
  | x :: xs, a => if x = a then 0 else idxOf xs a + 1

/-- The console name of a switch: the explicit `name` if given, else the
dashed field name (`SwitchArgument` / `pre_validate` in `container.py`). -/
def switchOptName (swName : Option String) (fname : String) : String :=
  match swName with
  | some n => n
  | none => toConsoleName fname

/-- The message of the `InvalidArgumentsError` raised by
`ArgumentContainer.pre_validate` on a switch conflict. -/
def conflictMsg (cn eo dso : String) : String :=
  cn ++ ": options " ++ eo ++ " and " ++ dso ++ " are mutually exclusive"

/- Embeds `ArgumentContainer.pre_validate` (container.py lines 74-93),
split into the container entry point, the loop over fields, and the loop
over a command field's options.  A raised `InvalidArgumentsError` is an
`Except.error` carrying the exception message. -/
mutual
def preValidate : Container → List String → Except String Unit
  | .mk cn fs, argv => preValidateFields cn fs argv

def preValidateFields : String → List (String × ArgKind) → List String →
    Except String Unit
  | _, [], _ => .ok ()
  | cn, (fname, k) :: rest, argv =>
    match checkField cn fname k argv with
    | .error e => .error e
    | .ok () => preValidateFields cn rest argv

def checkField : String → String → ArgKind → List String → Except String Unit
  | cn, fname, .switch swName en dis _ _, argv =>
    let nm := switchOptName swName fname
    let eo := "--" ++ nm
    let dso := "--no-" ++ nm
    if en = true ∧ dis = true ∧ eo ∈ argv ∧ dso ∈ argv then
      .error (conflictMsg cn eo dso)
    else
      .ok ()
  | _, _, .command opts, argv => preValidateOptions opts argv
  | _, _, .value _, _ => .ok ()

def preValidateOptions : List (String × Container) → List String →
    Except String Unit
  | [], _ => .ok ()
  | (cmdName, sub) :: rest, argv =>
    if cmdName ∈ argv then
      preValidate sub (argv.drop (idxOf argv cmdName + 1))
    else
      preValidateOptions rest argv
end

/-- The sub-command branch `pre_validate` recurses into: the first entry of
the options mapping (in insertion order) whose command token occurs in the
raw vector, paired with the vector suffix after that token's first
occurrence.  Mirrors the command branch of `pre_validate`. -/
def chooseBranch : List (String × Container) → List String →
    Option (Container × List String)
  | [], _ => none
  | (cmdName, sub) :: rest, argv =>
    if cmdName ∈ argv then
      some (sub, argv.drop (idxOf argv cmdName + 1))
    else
      chooseBranch rest argv

/- Parser registrations.  One `RegEntry` is one `parser.add_argument` /
`add_subparsers` call made by `ArgumentContainer.add_arguments`; the
parser object itself is the list of registrations, in registration order.
`valueArg` records a `ValueArgument` registration (its destination and the
env-sourced default, if any); `storeTrue` / `storeFalse` record the two
`SwitchArgument.add_argument` registrations with their resolved default;
`subcommands` records a `CommandArgument.add_argument` call with the
recursively registered branch parsers. -/
mutual
inductive RegEntry where
  | valueArg (dest : String) (dflt : Option Value)
  | storeTrue (optName dest : String) (dflt : Value)
  | storeFalse (optName dest : String) (dflt : Value)
  | subcommands (dest : String) (branches : List (String × List RegEntry))
end

/-- A parser is its list of registrations. -/
abbrev Parser := List RegEntry

/-- An external process environment, as read by `os.getenv`. -/
abbrev Env := String → Option String

/-- Embeds `ValueArgument.get_env_default` for fields whose resolved
converter is `None` (the modelled value and switch fields carry no type
annotation, so `get_converter` returns `None` and the raw environment
string is used unconverted). -/
def envDefaultRaw (envVar : Option String) (env : Env) : Option Value :=
  match envVar with
  | none => none
  | some ev =>
    match env ev with
    | none => none
    | some raw => some (.vstr raw)

/-- Embeds `SwitchArgument.add_argument`'s default:
`resolve_default(attr, self.default)` — the env-sourced value if the
configured environment variable is set, else the static default. -/
def switchDefault (dflt : Bool) (envVar : Option String) (env : Env) : Value :=
  match envDefaultRaw envVar env with
  | some v => v
  | none => .vbool dflt

/- Embeds `ArgumentContainer.new_parser` / `add_arguments` together with
each argument type's `add_argument` (container.py lines 18-64,
argument_types.py).  Registration order is declaration order; a command
field registers one subparser per option with the extended prefix
`{prefix}{field}-`. -/
mutual
def newParser : Container → Env → Parser
  | .mk _ fs, env => regFields fs "" env

def regFields : List (String × ArgKind) → String → Env → Parser
  | [], _, _ => []
  | (fname, k) :: rest, pfx, env =>
    regField fname k pfx env ++ regFields rest pfx env

def regField : String → ArgKind → String → Env → Parser
  | fname, .value envVar, pfx, env =>
    [.valueArg (pfx ++ fname) (envDefaultRaw envVar env)]
  | fname, .switch swName en dis dflt envVar, pfx, env =>
    let nm := switchOptName swName fname
    let dest := pfx ++ fname
    let d := switchDefault dflt envVar env
    (if en then [RegEntry.storeTrue ("--" ++ nm) dest d] else []) ++
      (if dis then [RegEntry.storeFalse ("--no-" ++ nm) dest d] else [])
  | fname, .command opts, pfx, env =>
    [.subcommands (pfx ++ fname) (regBranches opts (pfx ++ fname ++ "-") env)]

def regBranches : List (String × Container) → String → Env →
    List (String × List RegEntry)
  | [], _, _ => []
  | (cmdName, .mk _ sfs) :: rest, pfx, env =>
    (cmdName, regFields sfs pfx env) :: regBranches rest pfx env
end

/- Embeds extraction (`ArgumentContainer.from_namespace` /
`namespace_to_dict` driving each field's `extract`).  A value or switch
field extracts the namespace value unchanged (`ValueArgument.extract` with
a `None` late converter).  A command field follows
`CommandArgument.extract` in argument/command.py lines 61-71: a `None`
selection raises the selection-required `InvalidArgumentsError`, otherwise
`self.options[key]` is looked up (a missing key is a `KeyError`) and the
selected container is built recursively under the extended prefix.
Errors from any field propagate immediately (fail-fast). -/
mutual
def extractContainer : Container → String → NS → Except String Value
  | .mk cn fs, pfx, ns =>
    match extractFields fs pfx ns with
    | .error e => .error e
    | .ok kvs => .ok (.inst cn kvs)

def extractFields : List (String × ArgKind) → String → NS →
    Except String (List (String × Value))
  | [], _, _ => .ok []
  | (fname, k) :: rest, pfx, ns =>
    match extractField fname k pfx ns with
    | .error e => .error e
    | .ok v =>
      match extractFields rest pfx ns with
      | .error e => .error e
      | .ok kvs => .ok ((fname, v) :: kvs)

def extractField : String → ArgKind → String → NS → Except String Value
  | fname, .value _, pfx, ns => .ok (ns (pfx ++ fname))
  | fname, .switch _ _ _ _ _, pfx, ns => .ok (ns (pfx ++ fname))
  | fname, .command opts, pfx, ns =>
    match ns (pfx ++ fname) with
    | .vnone => .error (fname ++ ": command selection is required")
    | .vstr key => extractSelected key opts (pfx ++ fname ++ "-") ns
    | _ => .error "KeyError: unhashable or unknown command key"

def extractSelected : String → List (String × Container) → String → NS →
    Except String Value
  | key, [], _, _ => .error ("KeyError: " ++ key)
  | key, (cmdName, sub) :: rest, pfx2, ns =>
    if cmdName = key then extractContainer sub pfx2 ns
    else extractSelected key rest pfx2 ns
end

/-- An external tokenizer (`argparse.ArgumentParser.parse_args`): from the
built parser and an argument vector to a flat namespace, or a usage error
(argparse terminates the process; here surfaced as `Except.error`). -/
abbrev Tokenizer := Parser → List String → Except String NS

/-- Embeds `ArgumentContainer.parse_args` (container.py lines 100-107) for
an explicitly supplied vector: build the parser, pre-validate a copy of the
raw vector, tokenize, then extract the typed instance under the empty
prefix. -/
def parseArgs (c : Container) (env : Env) (tokenize : Tokenizer)
    (argv : List String) : Except String Value :=
  let p := newParser c env
  match preValidate c (argv.map id) with
  | .error e => .error e
  | .ok () =>
    match tokenize p argv with
    | .error e => .error e
    | .ok ns => extractContainer c "" ns

/-- The same call, additionally returning the caller's argument vector as
it stands after the call.  `pre_validate` receives a fresh copy
(`list(raw)`), the tokenizer only reads the vector, and extraction reads
the parsed namespace only, so the caller's list is returned as given on
every path, error or not. -/
def parseArgsTrack (c : Container) (env : Env) (tokenize : Tokenizer)
    (argv : List String) : Except String Value × List String :=
  match preValidate c (argv.map id) with
  | .error e => (.error e, argv)
  | .ok () =>
    match tokenize (newParser c env) argv with
    | .error e => (.error e, argv)
    | .ok ns => (extractContainer c "" ns, argv)

/-- Converters a resolved annotation can produce: the keyword registry of
`ValueArgument.guess_converter` plus other callables visible in the module
scope of argument_types.py. -/
inductive PyConverter where
  | cInt
  | cFloat
  | cBool
  | cList
  | cTuple
  | cSet
  | cFrozenset
  | cBytes
  | cBytearray
  | cStr
  | cPath
  | cOther (nm : String)
deriving Repr, DecidableEq

/-- Python objects a type expression can evaluate to: a callable class or
function, a parameterized generic (`types.GenericAlias`, carrying its
callable origin), a union type (`types.UnionType`), `None`, or a
non-callable object such as an imported module. -/
inductive PyVal where
  | callableTy (c : PyConverter)
  | genericAlias (origin : PyConverter)
  | unionTy
  | pyNone
  | noncallableObj (desc : String)
deriving Repr, DecidableEq

/-- The names visible to `eval(attr.type, globals())` in argument_types.py:
the module's imports and top-level bindings plus built-in type names.  Note
`os` is an imported module — a resolvable name bound to a non-callable
object — and attrs `NOTHING` is a non-callable sentinel. -/
def pyGlobals : List (String × PyVal) := [
  ("int", .callableTy .cInt),
  ("float", .callableTy .cFloat),
  ("bool", .callableTy .cBool),
  ("list", .callableTy .cList),
  ("tuple", .callableTy .cTuple),
  ("set", .callableTy .cSet),
  ("frozenset", .callableTy .cFrozenset),
  ("bytes", .callableTy .cBytes),
  ("bytearray", .callableTy .cBytearray),
  ("str", .callableTy .cStr),
  ("Path", .callableTy .cPath),
  ("Enum", .callableTy (.cOther "Enum")),
  ("ArgumentParser", .callableTy (.cOther "ArgumentParser")),
  ("Namespace", .callableTy (.cOther "Namespace")),
  ("strtobool", .callableTy (.cOther "strtobool")),
  ("GenericAlias", .callableTy (.cOther "GenericAlias")),
  ("UnionType", .callableTy (.cOther "UnionType")),
  ("Attribute", .callableTy (.cOther "Attribute")),
  ("ArgumentContainer", .callableTy (.cOther "ArgumentContainer")),
  ("os", .noncallableObj "module os"),
  ("NOTHING", .noncallableObj "attrs NOTHING sentinel"),
  ("None", .pyNone)]

/-- Embeds `eval(attr.type, globals())` over the modelled scope, returning
`none` where eval raises (an unresolvable name).  Plain names are looked up
directly; a one-level subscripted generic `base[item]` evaluates to a
`GenericAlias` when both names resolve (deeper nestings are not modelled:
for registry collection names the code reaches the same converter through
the prefix-match fallback). -/
def evalAnn (s : String) : Option PyVal :=
  match List.lookup s pyGlobals with
  | some v => some v
  | none =>
    match s.data.splitOn '[' with
    | [baseCs, restCs] =>
      match restCs.reverse with
      | ']' :: innerRev =>
        match List.lookup (String.mk baseCs) pyGlobals,
            List.lookup (String.mk innerRev.reverse) pyGlobals with
        | some (.callableTy c), some _ => some (.genericAlias c)
        | _, _ => none
      | _ => none
    | _ => none

/-- Embeds `ValueArgument.guess_converter` (argument_types.py lines
135-153): first keyword of the registry, in insertion order, that is a
prefix of the annotation string. -/
def guessKeywords : List (String × PyConverter) := [
  ("int", .cInt),
  ("float", .cFloat),
  ("bool", .cBool),
  ("list", .cList),
  ("tuple", .cTuple),
  ("set", .cSet),
  ("frozenset", .cFrozenset),
  ("bytes", .cBytes),
  ("bytearray", .cBytearray),
  ("str", .cStr),
  ("Path", .cPath)]

/-- Embeds Python `str.startswith`: the pattern is a prefix of the string. -/
def strStartsWith (s p : String) : Bool := p.data.isPrefixOf s.data

/-- Best-effort converter guess for a string annotation. -/
def guessConverter (s : String) : Option PyConverter :=
  match guessKeywords.find? (fun kv => strStartsWith s kv.1) with
  | some kv => some kv.2
  | none => none

/-- A field's declared type as seen on the attrs `Attribute`: a string
annotation, an actual type object, or absent. -/
inductive AttrType where
  | strA (s : String)
  | tyA (v : PyVal)
  | noneA
deriving Repr

/-- Embeds `ValueArgument.get_converter` (argument_types.py lines 155-173):
explicit `self.type` wins; a non-string annotation is used directly; a
string annotation is evaluated, falling back to `guess_converter` when eval
raises; a `GenericAlias` is replaced by its origin; a union yields no
converter; finally `assert callable(type_value) or type_value is None`
raises `AssertionError` on a resolved non-callable object. -/
def getConverter (selfType : Option PyVal) (attrType : AttrType) :
    Except String (Option PyConverter) :=
  let tv : Option PyVal :=
    match selfType with
    | some t => some t
    | none =>
      match attrType with
      | .tyA v => some v
      | .noneA => none
      | .strA s =>
        match evalAnn s with
        | some v => some v
        | none =>
          match guessConverter s with
          | some c => some (.callableTy c)
          | none => none
  match tv with
  | none => .ok none
  | some (.genericAlias c) => .ok (some c)
  | some .unionTy => .ok none
  | some (.callableTy c) => .ok (some c)
  | some .pyNone => .ok none
  | some (.noncallableObj d) =>
    .error ("AssertionError: Type converter " ++ d ++ " is not callable or a type")

/-- An element converter as applied by argparse to one raw token: it either
produces a value or raises. -/
abbrev Conv := String → Except String Value

/-- Embeds `ValueArgument.get_env_default` (argument_types.py lines
113-133): no env var configured or env var unset yields `NOTHING` (here
`none`); with no converter the raw string is used; otherwise the converted
value, a conversion failure being rewrapped as the descriptive
`ValueError`. -/
def getEnvDefault (envVar : Option String) (conv : Option Conv) (env : Env) :
    Except String (Option Value) :=
  match envVar with
  | none => .ok none
  | some ev =>
    match env ev with
    | none => .ok none
    | some raw =>
      match conv with
      | none => .ok (some (.vstr raw))
      | some c =>
        match c raw with
        | .ok v => .ok (some v)
        | .error _ =>
          .error ("Invalid value for environment variable " ++ ev ++ ": " ++ raw)

/-- The registered keyword arguments a Flag field contributes to
`add_argument`, restricted to the default/required pair the claims are
about. -/
structure FlagKwargs where
  dflt : Option Value
  required : Bool
deriving Repr

/-- Embeds `FlagArgument.get_kwargs` (argument_types.py lines 271-281) on
top of `ValueArgument.get_kwargs` (which installs the env-sourced default
when present): an explicit default always wins and makes the argument
optional; else an env-sourced default makes it optional; else it is
required. -/
def flagGetKwargs (explicitDefault : Option Value) (envVar : Option String)
    (conv : Option Conv) (env : Env) : Except String FlagKwargs :=
  match getEnvDefault envVar conv env with
  | .error e => .error e
  | .ok envD =>
    match explicitDefault with
    | some d => .ok ⟨some d, false⟩
    | none =>
      match envD with
      | some v => .ok ⟨some v, false⟩
      | none => .ok ⟨none, true⟩

/-- An enumeration over a fixed symbol set: ordered members, each with a
declared name and an underlying value (string-valued members; for
non-string underlying values no raw token compares equal and only the name
path can match). -/
structure EnumDef where
  members : List (String × String)
deriving Repr

/-- Comma-joined member names, as in the `EnumArgument` error message. -/
def enumAllowed (e : EnumDef) : String :=
  String.intercalate ", " (e.members.map Prod.fst)

/-- Embeds the closure returned by `EnumArgument.get_converter`
(argument_types.py lines 344-357) on a raw string token: `self.enum[value]`
(lookup by declared name) first, then `self.enum(value)` (lookup by
underlying value, aliases resolving to the first member), else a
`ValueError` listing all member names. -/
def enumConvert (e : EnumDef) (tok : String) : Except String (String × String) :=
  match e.members.find? (fun m => m.1 = tok) with
  | some m => .ok m
  | none =>
    match e.members.find? (fun m => m.2 = tok) with
    | some m => .ok m
    | none => .error ("Expected one of " ++ enumAllowed e ++ ", got " ++ tok)

/-- The container kind a `ListArgument` materializes. -/
inductive ContainerKind where
  | listK
  | setK
deriving Repr, DecidableEq

/-- A materialized Python collection; a `pset` holds its elements with
set-membership semantics (construction order carries no meaning). -/
inductive PyColl where
  | plist (xs : List Value)
  | pset (xs : List Value)
deriving Repr

/-- Builds the configured container kind from the converted items
(`self.container(items)`). -/
def materialize (ck : ContainerKind) (items : List Value) : PyColl :=
  match ck with
  | .listK => .plist items
  | .setK => .pset items

/-- Splits a character list on the first occurrences of a non-empty
delimiter (head `d0`, tail `drest`), left to right and non-overlapping;
`acc` holds the current piece reversed. -/
def splitChars (d0 : Char) (drest : List Char) :
    List Char → List Char → List (List Char)
  | [], acc => [acc.reverse]
  | c :: cs, acc =>
    if (d0 :: drest).isPrefixOf (c :: cs) then
      acc.reverse :: splitChars d0 drest (List.drop drest.length cs) []
    else
      splitChars d0 drest cs (c :: acc)
termination_by l _ => l.length
decreasing_by
  · simp only [List.length_drop, List.length_cons]
    omega
  · simp only [List.length_cons]
    omega

/-- Embeds Python `str.split` with an explicit separator.  Python raises
`ValueError` on an empty separator; that case is mapped to the identity
split and excluded by hypothesis where it matters. -/
def pySplit (s delim : String) : List String :=
  match delim.data with
  | [] => [s]
  | d0 :: drest => (splitChars d0 drest s.data []).map (fun cs => String.mk cs)

def convItems (itemConv : Option (String → Value)) (items : List String) :
    List Value :=
  match itemConv with
  | some c => items.map c
  | none => items.map Value.vstr

/-- Embeds the closure returned by `ListArgument.get_converter`
(argument_types.py lines 384-392): the empty string yields no items,
otherwise the raw value splits on the delimiter; each piece goes through
the item converter when one is configured; the configured container kind is
materialized from the result. -/
def listConvert (delim : String) (itemConv : Option (String → Value))
    (ck : ContainerKind) (value : String) : PyColl :=
  let items := if value = "" then [] else pySplit value delim
  materialize ck (convItems itemConv items)

/-- The registered keyword arguments of an Option field, restricted to the
default/required pair. -/
structure OptKwargs where
  dflt : Option Value
  required : Bool
deriving Repr

/-- Embeds `OptionArgument.get_kwargs` (argument/option.py lines 49-57) on
top of `ValueArgument.get_kwargs` in argument/value.py (which installs the
default when one was supplied): an explicit `required` override wins, else
the option is required exactly when its default is absent. -/
def optionGetKwargs (selfRequired : Option Bool) (selfDefault : Option Value) :
    OptKwargs :=
  { dflt := selfDefault,
    required :=
      match selfRequired with
      | some b => b
      | none => selfDefault.isNone }

/-- Embeds `FlagArgument.get_console_names` (argument_types.py lines
253-263): start from the supplied names, or the dashed field name when none
were supplied; add the extra aliases; then keep only the names that do not
already start with a dash, each prefixed with `--`.  (The Python `set` is
modelled as a list; the claims only inspect membership.) -/
def getConsoleNames (opts : List String) (extraOpts : List String)
    (fieldName : String) : List String :=
  let names := if opts.isEmpty then [toConsoleName fieldName] else opts
  let names := names ++ extraOpts
  (names.filter (fun n => !strStartsWith n "-")).map (fun n => "--" ++ n)

/-- Embeds `FlagArgument._option_names` in argument/flag.py lines 23-31
(the same logic as `OptionArgument.get_args`, argument/option.py lines
39-47): supplied names are kept verbatim; with no names the derived long
name is used; when no supplied name starts with `--` the derived long name
is appended. -/
def optionNamesFlagPy (names : List String) (fieldName : String) : List String :=
  let longName := "--" ++ toConsoleName fieldName
  if names.isEmpty then [longName]
  else if names.all (fun n => !strStartsWith n "--") then names ++ [longName]
  else names

/-- Concrete fixture mirroring the test suite's `BuildArguments`: a
positional collection field and a both-directions `verbose` switch. -/
def buildC : Container :=
  .mk "BuildArguments"
    [("projects", .value none),
     ("verbose", .switch none true true false none)]

/-- Concrete fixture mirroring `CleanArguments`. -/
def cleanC : Container :=
  .mk "CleanArguments" [("force", .switch none true true false none)]

/-- Concrete fixture mirroring `ConsoleArguments`: a root value field and a
sub-command choosing between `build` and `clean`. -/
def rootC : Container :=
  .mk "ConsoleArguments"
    [("root", .value none),
     ("command", .command [("build", buildC), ("clean", cleanC)])]

/-- A namespace in which no sub-command branch was selected (the `command`
destination holds Python `None`). -/
def nsUnselected : NS :=
  fun k => if k = "command" then Value.vnone else Value.vstr "x"

/-- A namespace in which the `build` branch was selected. -/
def nsBuild : NS :=
  fun k => if k = "command" then Value.vstr "build" else Value.vstr "x"

/-- A mutually-exclusive switch conflict, located exactly the way
`pre_validate` looks for one: either some switch field of the container has
both directions active and both of its console tokens occur in the vector,
or the vector selects a sub-command branch (the first option whose token
occurs) and the conflict lies in that branch against the vector suffix
after the command token. -/
inductive SwitchConflict : Container → List String → Prop where
  | direct (cn : String) (fs : List (String × ArgKind)) (argv : List String)
      (fname : String) (swName : Option String) (dflt : Bool)
      (ev : Option String) :
      (fname, ArgKind.switch swName true true dflt ev) ∈ fs →
      ("--" ++ switchOptName swName fname) ∈ argv →
      ("--no-" ++ switchOptName swName fname) ∈ argv →
      SwitchConflict (.mk cn fs) argv
  | nested (cn : String) (fs : List (String × ArgKind)) (argv : List String)
      (fname : String) (opts : List (String × Container)) (sub : Container)
      (suffix : List String) :
      (fname, ArgKind.command opts) ∈ fs →
      chooseBranch opts argv = some (sub, suffix) →
      SwitchConflict sub suffix →
      SwitchConflict (.mk cn fs) argv

/-- A message of the exact form raised at the single `InvalidArgumentsError`
raise site of `pre_validate`: it names the owning container and both the
enable and the disable token of one switch. -/
def IsConflictMsg (msg : String) : Prop :=
  ∃ cn nm, msg = conflictMsg cn ("--" ++ nm) ("--no-" ++ nm)

lemma preValidateFields_cons (cn fname : String) (k : ArgKind)
    (rest : List (String × ArgKind)) (argv : List String) :
    preValidateFields cn ((fname, k) :: rest) argv =
      match checkField cn fname k argv with
      | .error e => .error e
      | .ok () => preValidateFields cn rest argv := by
  rw [preValidateFields]

lemma errFields_of_mem (cn : String) (fs : List (String × ArgKind))
    (argv : List String) (fname : String) (k : ArgKind) (e : String)
    (hmem : (fname, k) ∈ fs) (herr : checkField cn fname k argv = .error e) :
    ∃ msg, preValidateFields cn fs argv = .error msg := by
  induction fs with
  | nil => cases hmem
  | cons hd rest ih =>
    obtain ⟨hn, hk⟩ := hd
    rw [preValidateFields_cons]
    rcases List.mem_cons.mp hmem with hEq | hTail
    · obtain ⟨rfl, rfl⟩ := Prod.mk.injEq .. ▸ hEq
      rw [herr]
      exact ⟨e, rfl⟩
    · cases hcf : checkField cn hn hk argv with
      | error e2 => exact ⟨e2, rfl⟩
      | ok u => cases u; exact ih hTail

lemma preValidateOptions_eq_chosen (opts : List (String × Container))
    (argv : List String) (sub : Container) (suffix : List String)
    (h : chooseBranch opts argv = some (sub, suffix)) :
    preValidateOptions opts argv = preValidate sub suffix := by
  induction opts with
  | nil => simp [chooseBranch] at h
  | cons hd tl ih =>
    obtain ⟨cmdName, subc⟩ := hd
    rw [preValidateOptions]
    by_cases hc : cmdName ∈ argv
    · rw [chooseBranch, if_pos hc] at h
      obtain ⟨rfl, rfl⟩ := Prod.mk.injEq .. ▸ Option.some.injEq .. ▸ h
      simp [hc]
    · rw [chooseBranch, if_neg hc] at h
      simp only [if_neg hc]
      exact ih h

lemma preValidate_err_of_conflict (c : Container) (argv : List String)
    (h : SwitchConflict c argv) : ∃ msg, preValidate c argv = .error msg := by
  induction h with
  | direct cn fs argv fname swName dflt ev hmem he hd =>
    have hcf : checkField cn fname (.switch swName true true dflt ev) argv =
        .error (conflictMsg cn ("--" ++ switchOptName swName fname)
          ("--no-" ++ switchOptName swName fname)) := by
      rw [checkField]
      exact if_pos ⟨rfl, rfl, he, hd⟩
    rw [preValidate]
    exact errFields_of_mem cn fs argv fname _ _ hmem hcf
  | nested cn fs argv fname opts sub suffix hmem hchoose _ ih =>
    obtain ⟨msg, hmsg⟩ := ih
    have hopts : preValidateOptions opts argv = .error msg := by
      rw [preValidateOptions_eq_chosen opts argv sub suffix hchoose]
      exact hmsg
    have hcf : checkField cn fname (.command opts) argv = .error msg := by
      rw [checkField]; exact hopts
    rw [preValidate]
    exact errFields_of_mem cn fs argv fname _ _ hmem hcf

lemma parseArgsTrack_snd (c : Container) (env : Env) (tokenize : Tokenizer)
    (argv : List String) : (parseArgsTrack c env tokenize argv).2 = argv := by
  unfold parseArgsTrack
  cases preValidate c (argv.map id) with
  | error e => rfl
  | ok u =>
    cases u
    cases tokenize (newParser c env) argv with
    | error e => rfl
    | ok ns => rfl

lemma extractSelected_eq_lookup (key : String)
    (opts : List (String × Container)) (pfx2 : String) (ns : NS)
    (sub : Container) (h : List.lookup key opts = some sub) :
    extractSelected key opts pfx2 ns = extractContainer sub pfx2 ns := by
  induction opts with
  | nil => simp [List.lookup] at h
  | cons hd tl ih =>
    obtain ⟨cmdName, subc⟩ := hd
    rw [extractSelected]
    by_cases hc : cmdName = key
    · subst hc
      simp only [List.lookup, beq_self_eq_true, Option.some.injEq] at h
      rw [if_pos rfl, h]
    · have hbeq : (key == cmdName) = false := by
        simp [beq_eq_false_iff_ne]
        exact fun hk => hc hk.symm
      simp only [List.lookup, hbeq] at h
      rw [if_neg hc]
      exact ih h

lemma extractContainer_ok_inst (sub : Container) (pfx2 : String) (ns : NS)
    (v : Value) (h : extractContainer sub pfx2 ns = .ok v) :
    ∃ kvs, v = .inst sub.cname kvs := by
  obtain ⟨cn, fs⟩ := sub
  rw [extractContainer] at h
  cases hf : extractFields fs pfx2 ns with
  | error e => rw [hf] at h; cases h
  | ok kvs =>
    rw [hf] at h
    cases h
    exact ⟨kvs, rfl⟩

lemma find_by_name (ms : List (String × String)) (nm v : String)
    (hmem : (nm, v) ∈ ms) (hnames : (ms.map Prod.fst).Nodup) :
    ms.find? (fun m => m.1 = nm) = some (nm, v) := by
  induction ms with
  | nil => cases hmem
  | cons hd tl ih =>
    obtain ⟨hn, hv⟩ := hd
    rw [List.map_cons, List.nodup_cons] at hnames
    rcases List.mem_cons.mp hmem with hEq | hTail
    · obtain ⟨rfl, rfl⟩ := Prod.mk.injEq .. ▸ hEq
      simp [List.find?]
    · have hne : ¬ (hn = nm) := by
        intro hEq2
        exact hnames.1 (by
          rw [hEq2]
          show nm ∈ List.map Prod.fst tl
          exact List.mem_map_of_mem Prod.fst hTail)
      simp only [List.find?]
      rw [decide_eq_false hne]
      exact ih hTail hnames.2

lemma find_by_value (ms : List (String × String)) (nm v : String)
    (hmem : (nm, v) ∈ ms) (hvals : (ms.map Prod.snd).Nodup) :
    ms.find? (fun m => m.2 = v) = some (nm, v) := by
  induction ms with
  | nil => cases hmem
  | cons hd tl ih =>
    obtain ⟨hn, hv⟩ := hd
    rw [List.map_cons, List.nodup_cons] at hvals
    rcases List.mem_cons.mp hmem with hEq | hTail
    · obtain ⟨rfl, rfl⟩ := Prod.mk.injEq .. ▸ hEq
      simp [List.find?]
    · have hne : ¬ (hv = v) := by
        intro hEq2
        exact hvals.1 (by
          rw [hEq2]
          show v ∈ List.map Prod.snd tl
          exact List.mem_map_of_mem Prod.snd hTail)
      simp only [List.find?]
      rw [decide_eq_false hne]
      exact ih hTail hvals.2

lemma find_none_of_all_ne (ms : List (String × String)) (p : String × String → Prop)
    [DecidablePred p] (h : ∀ m ∈ ms, ¬ p m) :
    ms.find? (fun m => p m) = none := by
  induction ms with
  | nil => rfl
  | cons hd tl ih =>
    simp only [List.find?]
    rw [decide_eq_false (h hd (List.mem_cons_self hd tl))]
    exact ih (fun m hm => h m (List.mem_cons_of_mem hd hm))

mutual

lemma errShapeC : ∀ (c : Container) (argv : List String) (msg : String),
    preValidate c argv = .error msg → IsConflictMsg msg
  | .mk cn fs, argv, msg, h =>
    errShapeFields cn fs argv msg (by rw [preValidate] at h; exact h)

lemma errShapeFields : ∀ (cn : String) (fs : List (String × ArgKind))
    (argv : List String) (msg : String),
    preValidateFields cn fs argv = .error msg → IsConflictMsg msg
  | cn, [], argv, msg, h => by rw [preValidateFields] at h; cases h
  | cn, (fname, k) :: rest, argv, msg, h => by
    rw [preValidateFields_cons] at h
    cases hcf : checkField cn fname k argv with
    | error e =>
      rw [hcf] at h
      cases h
      exact errShapeCheck cn fname k argv msg hcf
    | ok u =>
      cases u
      rw [hcf] at h
      exact errShapeFields cn rest argv msg h

lemma errShapeCheck : ∀ (cn fname : String) (k : ArgKind)
    (argv : List String) (msg : String),
    checkField cn fname k argv = .error msg → IsConflictMsg msg
  | cn, fname, .switch swName en dis dflt ev, argv, msg, h => by
    rw [checkField] at h
    by_cases hc : en = true ∧ dis = true ∧
        ("--" ++ switchOptName swName fname) ∈ argv ∧
        ("--no-" ++ switchOptName swName fname) ∈ argv
    · rw [if_pos hc] at h
      cases h
      exact ⟨cn, switchOptName swName fname, rfl⟩
    · rw [if_neg hc] at h
      cases h
  | cn, fname, .command opts, argv, msg, h => by
    rw [checkField] at h
    exact errShapeOpts opts argv msg h
  | cn, fname, .value ev, argv, msg, h => by
    rw [checkField] at h
    cases h

lemma errShapeOpts : ∀ (opts : List (String × Container))
    (argv : List String) (msg : String),
    preValidateOptions opts argv = .error msg → IsConflictMsg msg
  | [], argv, msg, h => by rw [preValidateOptions] at h; cases h
  | (cmdName, sub) :: rest, argv, msg, h => by
    rw [preValidateOptions] at h
    by_cases hc : cmdName ∈ argv
    · rw [if_pos hc] at h
      exact errShapeC sub (argv.drop (idxOf argv cmdName + 1)) msg h
    · rw [if_neg hc] at h
      exact errShapeOpts rest argv msg h

end

/-- C1: for every bound container type and raw argument vector, a Switch
field with both directions active whose enable token and disable token both
occur in the vector — directly on the container, or recursively through the
chosen sub-command branch — makes the pre-validation pass fail with the
`InvalidArgumentsError` conflict error; the message names both option
tokens and the owning container, and `parse_args` raises it before any
tokenization (for every tokenizer and environment). -/
theorem C1_switch_conflict_prevalidation (c : Container) (argv : List String)
    (h : SwitchConflict c argv) :
    ∃ msg, preValidate c argv = .error msg ∧ IsConflictMsg msg ∧
      ∀ (env : Env) (tokenize : Tokenizer),
        parseArgs c env tokenize argv = .error msg := by
  obtain ⟨msg, hmsg⟩ := preValidate_err_of_conflict c argv h
  refine ⟨msg, hmsg, errShapeC c argv msg hmsg, ?_⟩
  intro env tokenize
  unfold parseArgs
  rw [List.map_id, hmsg]

/-- Witness for C1: `BuildArguments` with both `--verbose` and
`--no-verbose` in the vector. -/
theorem C1_switch_conflict_prevalidation_witness :
    SwitchConflict buildC ["proj", "--verbose", "--no-verbose"] ∧
      ∃ msg,
        preValidate buildC ["proj", "--verbose", "--no-verbose"] = .error msg ∧
          IsConflictMsg msg ∧
          ∀ (env : Env) (tokenize : Tokenizer),
            parseArgs buildC env tokenize ["proj", "--verbose", "--no-verbose"] =
              .error msg :=
  have hconf : SwitchConflict buildC ["proj", "--verbose", "--no-verbose"] :=
    SwitchConflict.direct "BuildArguments" _ _ "verbose" none false none
      (by simp [buildC]) (by decide) (by decide)
  ⟨hconf, C1_switch_conflict_prevalidation buildC _ hconf⟩

/-- C3: for every Command field, extraction with no selected branch (the
destination holds `None`) fails with the selection-required error; with a
selected branch it delegates recursively to the selected container type
under the extended prefix, and any successful container extraction
produces a typed instance of that container. -/
theorem C3_command_extraction (fname pfx : String)
    (opts : List (String × Container)) (ns : NS) :
    (ns (pfx ++ fname) = .vnone →
      extractField fname (.command opts) pfx ns =
        .error (fname ++ ": command selection is required")) ∧
    (∀ key sub, ns (pfx ++ fname) = .vstr key →
      List.lookup key opts = some sub →
      extractField fname (.command opts) pfx ns =
        extractContainer sub (pfx ++ fname ++ "-") ns) ∧
    (∀ sub pfx2 v, extractContainer sub pfx2 ns = .ok v →
      ∃ kvs, v = .inst sub.cname kvs) := by
  refine ⟨?_, ?_, ?_⟩
  · intro hnone
    rw [extractField, hnone]
  · intro key sub hkey hlook
    rw [extractField, hkey]
    exact extractSelected_eq_lookup key opts (pfx ++ fname ++ "-") ns sub hlook
  · intro sub pfx2 v hv
    exact extractContainer_ok_inst sub pfx2 ns v hv

/-- Witness for C3: the `ConsoleArguments` command field with no selection
and with the `build` branch selected. -/
theorem C3_command_extraction_witness :
    (nsUnselected "command" = .vnone ∧
      extractField "command" (.command [("build", buildC), ("clean", cleanC)])
          "" nsUnselected =
        .error "command: command selection is required") ∧
    (nsBuild "command" = .vstr "build" ∧
      List.lookup "build" [("build", buildC), ("clean", cleanC)] = some buildC ∧
      extractField "command" (.command [("build", buildC), ("clean", cleanC)])
          "" nsBuild =
        extractContainer buildC "command-" nsBuild) :=
  have h3 := C3_command_extraction "command" ""
    [("build", buildC), ("clean", cleanC)] nsUnselected
  have h3b := C3_command_extraction "command" ""
    [("build", buildC), ("clean", cleanC)] nsBuild
  ⟨⟨rfl, by
    have := h3.1 (by rfl)
    simpa using this⟩,
   ⟨rfl, rfl, by
    have := h3b.2.1 "build" buildC (by rfl) rfl
    simpa using this⟩⟩

/-- C9: parsing is deterministic and one call shares no mutable state with
the next: with a fixed container type, environment and tokenizer, running
`parse_args` a second time on the vector as the first call left it yields a
value-equal result (the parser and prefixes are rebuilt from pure inputs on
every call). -/
theorem C9_parse_args_deterministic (c : Container) (env : Env)
    (tokenize : Tokenizer) (argv : List String) :
    (parseArgsTrack c env tokenize
        (parseArgsTrack c env tokenize argv).2).1 =
      (parseArgsTrack c env tokenize argv).1 := by
  rw [parseArgsTrack_snd]

/-- C10: `parse_args` leaves the caller's explicitly supplied vector
unchanged on every path — pre-validation error, tokenizer error, or
successful extraction. -/
theorem C10_parse_args_preserves_argv (c : Container) (env : Env)
    (tokenize : Tokenizer) (argv : List String) :
    (parseArgsTrack c env tokenize argv).2 = argv :=
  parseArgsTrack_snd c env tokenize argv

/-- C2 counterexample: the annotation string `"os"` resolves in the module
scope of argument_types.py to the imported `os` module, a non-callable
object, and `get_converter` then raises `AssertionError` — converter
resolution for a string annotation can raise. -/
theorem C2_counterexample_os_annotation_raises :
    getConverter none (.strA "os") =
      .error "AssertionError: Type converter module os is not callable or a type" :=
  rfl

/-- C2 (amended): for a string-annotated field, converter resolution never
raises provided the annotation does not resolve to a non-callable object in
scope: a name resolving to a callable is used directly; when name
resolution fails the prefix-match fallback over the keyword registry
decides the converter and no error is possible (for example `"list[Foo]"`
yields the list converter); when nothing matches the converter is null and
the raw token is passed through extraction unchanged. -/
theorem C2_string_annotation_fallback :
    (∀ s cv, evalAnn s = some (.callableTy cv) →
      getConverter none (.strA s) = .ok (some cv)) ∧
    (∀ s, evalAnn s = none →
      getConverter none (.strA s) = .ok (guessConverter s)) ∧
    (getConverter none (.strA "list[Foo]") = .ok (some .cList)) ∧
    (∀ s, evalAnn s = none → guessConverter s = none →
      getConverter none (.strA s) = .ok none) ∧
    (∀ (cn fname : String) (ev : Option String) (ns : NS),
      extractContainer (.mk cn [(fname, .value ev)]) "" ns =
        .ok (.inst cn [(fname, ns ("" ++ fname))])) := by
  refine ⟨?_, ?_, rfl, ?_, ?_⟩
  · intro s cv hres
    simp [getConverter, hres]
  · intro s hres
    simp only [getConverter, hres]
    cases hg : guessConverter s with
    | none => rfl
    | some cv => rfl
  · intro s hres hguess
    simp [getConverter, hres, hguess]
  · intro cn fname ev ns
    rw [extractContainer, extractFields, extractField, extractFields]

/-- Witness for C2: the registry name `"int"` resolves to the `int`
converter; the unresolvable name `"Unknown"` falls back to the guess
(which is empty) and yields the null converter; extraction of a raw token
`"x"` under a null converter returns the string `"x"` unchanged. -/
theorem C2_string_annotation_fallback_witness :
    (evalAnn "int" = some (.callableTy .cInt) ∧
      getConverter none (.strA "int") = .ok (some .cInt)) ∧
    (evalAnn "Unknown" = none ∧ guessConverter "Unknown" = none ∧
      getConverter none (.strA "Unknown") = .ok none) ∧
    extractContainer (.mk "UnknownArgs" [("stuff", .value none)]) ""
        (fun _ => .vstr "x") =
      .ok (.inst "UnknownArgs" [("stuff", .vstr "x")]) :=
  ⟨⟨rfl, C2_string_annotation_fallback.1 "int" .cInt rfl⟩,
   ⟨rfl, rfl, C2_string_annotation_fallback.2.2.2.1 "Unknown" rfl rfl⟩,
   C2_string_annotation_fallback.2.2.2.2 "UnknownArgs" "stuff" none
     (fun _ => .vstr "x")⟩

/-- C4: Flag default/required precedence.  Given that the env-default
computation succeeds, an explicit default becomes the registered default
with `required = false`; else a set environment variable's converted value
becomes the default with `required = false`; else the argument is required.
The last conjunct states the env-sourcing itself: a set variable whose
value converts successfully yields that converted value. -/
theorem C4_flag_default_precedence (explicitDefault : Option Value)
    (envVar : Option String) (conv : Option Conv) (env : Env)
    (envD : Option Value)
    (h : getEnvDefault envVar conv env = .ok envD) :
    (∀ d, explicitDefault = some d →
      flagGetKwargs explicitDefault envVar conv env = .ok ⟨some d, false⟩) ∧
    (∀ v, explicitDefault = none → envD = some v →
      flagGetKwargs explicitDefault envVar conv env = .ok ⟨some v, false⟩) ∧
    (explicitDefault = none → envD = none →
      flagGetKwargs explicitDefault envVar conv env = .ok ⟨none, true⟩) ∧
    (∀ ev raw cf v, envVar = some ev → env ev = some raw → conv = some cf →
      cf raw = .ok v → getEnvDefault envVar conv env = .ok (some v)) := by
  refine ⟨?_, ?_, ?_, ?_⟩
  · intro d hd
    rw [flagGetKwargs, h, hd]
  · intro v hnone hv
    rw [flagGetKwargs, h, hnone, hv]
  · intro hnone hv
    rw [flagGetKwargs, h, hnone, hv]
  · intro ev raw cf v hev hraw hcf hconv
    simp [getEnvDefault, hev, hraw, hcf, hconv]

/-- Witness for C4: all three precedence outcomes at concrete inputs, with
the environment holding `COUNT_VAR=7` and a converter producing a value. -/
theorem C4_flag_default_precedence_witness :
    (flagGetKwargs (some (.vstr "cwd")) (some "COUNT_VAR")
        (some (fun s => .ok (.vstr s)))
        (fun k => if k = "COUNT_VAR" then some "7" else none) =
      .ok ⟨some (.vstr "cwd"), false⟩) ∧
    (flagGetKwargs none (some "COUNT_VAR") (some (fun s => .ok (.vstr s)))
        (fun k => if k = "COUNT_VAR" then some "7" else none) =
      .ok ⟨some (.vstr "7"), false⟩) ∧
    (flagGetKwargs none (some "COUNT_VAR") (some (fun s => .ok (.vstr s)))
        (fun _ => none) =
      .ok ⟨none, true⟩) :=
  ⟨(C4_flag_default_precedence (some (.vstr "cwd")) (some "COUNT_VAR")
      (some (fun s => .ok (.vstr s)))
      (fun k => if k = "COUNT_VAR" then some "7" else none)
      (some (.vstr "7")) rfl).1 (.vstr "cwd") rfl,
   (C4_flag_default_precedence none (some "COUNT_VAR")
      (some (fun s => .ok (.vstr s)))
      (fun k => if k = "COUNT_VAR" then some "7" else none)
      (some (.vstr "7")) rfl).2.1 (.vstr "7") rfl rfl,
   (C4_flag_default_precedence none (some "COUNT_VAR")
      (some (fun s => .ok (.vstr s)))
      (fun _ => none) none rfl).2.2.1 rfl rfl⟩

/-- C5: Enum conversion maps a token equal to a member's declared name to
that member; a token equal to a member's underlying value (and to no
member's name) to that member; and any other token to the descriptive
error listing all member names. -/
theorem C5_enum_conversion (e : EnumDef) (nm v : String)
    (hmem : (nm, v) ∈ e.members)
    (hnames : (e.members.map Prod.fst).Nodup) :
    (enumConvert e nm = .ok (nm, v)) ∧
    ((e.members.map Prod.snd).Nodup → (∀ m ∈ e.members, m.1 ≠ v) →
      enumConvert e v = .ok (nm, v)) ∧
    (∀ tok, (∀ m ∈ e.members, m.1 ≠ tok) → (∀ m ∈ e.members, m.2 ≠ tok) →
      enumConvert e tok =
        .error ("Expected one of " ++ enumAllowed e ++ ", got " ++ tok)) := by
  refine ⟨?_, ?_, ?_⟩
  · rw [enumConvert, find_by_name e.members nm v hmem hnames]
  · intro hvals hnoname
    rw [enumConvert, find_none_of_all_ne e.members (fun m => m.1 = v) hnoname,
      find_by_value e.members nm v hmem hvals]
  · intro tok hnoname hnoval
    rw [enumConvert, find_none_of_all_ne e.members (fun m => m.1 = tok) hnoname,
      find_none_of_all_ne e.members (fun m => m.2 = tok) hnoval]

/-- Witness for C5: the `Mode` enum of the test suite, with `debug`
resolving by name, `1` resolving by underlying value, and `xx` rejected
with the message listing `debug, release`. -/
theorem C5_enum_conversion_witness :
    (enumConvert ⟨[("debug", "1"), ("release", "2")]⟩ "debug" =
      .ok ("debug", "1")) ∧
    (enumConvert ⟨[("debug", "1"), ("release", "2")]⟩ "1" =
      .ok ("debug", "1")) ∧
    (enumConvert ⟨[("debug", "1"), ("release", "2")]⟩ "xx" =
      .error "Expected one of debug, release, got xx") :=
  have h := C5_enum_conversion ⟨[("debug", "1"), ("release", "2")]⟩ "debug" "1"
    (by simp) (by simp)
  ⟨h.1,
   h.2.1 (by simp) (by decide),
   by
    have := h.2.2 "xx" (by decide) (by decide)
    simpa using this⟩

/-- C6: List conversion splits a non-empty raw string on the (non-empty)
delimiter, applies the item converter to each piece, and materializes the
configured container kind; the empty string yields the empty container,
which is never a one-element container. -/
theorem C6_list_conversion (delim : String) (itemConv : Option (String → Value))
    (ck : ContainerKind) (hdelim : delim ≠ "") :
    (∀ s, s ≠ "" → listConvert delim itemConv ck s =
      materialize ck (convItems itemConv (pySplit s delim))) ∧
    (listConvert delim itemConv ck "" = materialize ck []) ∧
    (∀ x, materialize ck [] ≠ materialize ck [x]) := by
  refine ⟨?_, ?_, ?_⟩
  · intro s hs
    rw [listConvert]
    simp [hs]
  · rw [listConvert]
    simp [convItems]
    cases itemConv <;> simp
  · intro x
    cases ck <;> simp [materialize]

/-- Witness for C6: with delimiter `,`, the raw value `"a,b,c"` yields the
list `["a","b","c"]` and the raw value `""` yields the empty list. -/
theorem C6_list_conversion_witness :
    ("," ≠ "") ∧
    (listConvert "," none .listK "a,b,c" =
      .plist [.vstr "a", .vstr "b", .vstr "c"]) ∧
    (listConvert "," none .listK "" = .plist []) :=
  have h := C6_list_conversion "," none .listK (by decide)
  ⟨by decide,
   by
    have := h.1 "a,b,c" (by decide)
    rw [this]
    simp [pySplit, splitChars, convItems, materialize],
   h.2.1⟩

/-- C7: an Option field's registered `required` setting: an explicit
override always wins, and without one the option is required exactly when
no default value was supplied. -/
theorem C7_option_required (selfRequired : Option Bool)
    (selfDefault : Option Value) :
    (∀ b, selfRequired = some b →
      (optionGetKwargs selfRequired selfDefault).required = b) ∧
    (selfRequired = none →
      ((optionGetKwargs selfRequired selfDefault).required = true ↔
        selfDefault = none)) := by
  constructor
  · intro b hb
    simp [optionGetKwargs, hb]
  · intro hnone
    simp only [optionGetKwargs, hnone]
    cases selfDefault <;> simp [Option.isNone]

/-- Witness for C7: override wins over a present default; without an
override, a present default makes the option optional and an absent one
makes it required. -/
theorem C7_option_required_witness :
    ((optionGetKwargs (some true) (some (.vstr "d"))).required = true) ∧
    ((optionGetKwargs none (some (.vstr "d"))).required = true ↔
      (some (Value.vstr "d") : Option Value) = none) ∧
    ((optionGetKwargs none none).required = true ↔
      (none : Option Value) = none) :=
  ⟨(C7_option_required (some true) (some (.vstr "d"))).1 true rfl,
   (C7_option_required none (some (.vstr "d"))).2 rfl,
   (C7_option_required none none).2 rfl⟩

/-- C8 counterexample: a Flag field named `verbose` with supplied name
`-v` registers no console names at all — the supplied name is neither kept
nor is the derived long name `--verbose` appended, refuting the claim at
this input (no supplied name starts with `--`, so the claim requires the
derived long name, and it requires the supplied names to be included). -/
theorem C8_counterexample_dash_name_dropped :
    getConsoleNames ["-v"] [] "verbose" = [] ∧
      "-v" ∉ getConsoleNames ["-v"] [] "verbose" ∧
      "--verbose" ∉ getConsoleNames ["-v"] [] "verbose" := by
  refine ⟨rfl, ?_, ?_⟩ <;> simp [getConsoleNames, strStartsWith]

/-- C8 (amended): `FlagArgument.get_console_names` (argument_types.py)
registers exactly `--` plus each supplied or extra name that does not
already start with a dash (dash-prefixed names are dropped), the derived
field name being used only when no names were supplied; the claimed
keep-supplied-names-and-append-derived-long-name behavior holds instead
for the `argument/` package variants (`FlagArgument._option_names` /
`OptionArgument.get_args`), which have no extra aliases. -/
theorem C8_console_names (opts extraOpts : List String) (fieldName : String)
    (x : String) :
    (x ∈ getConsoleNames opts extraOpts fieldName ↔
      ∃ n, n ∈ (if opts.isEmpty then [toConsoleName fieldName] else opts) ++
          extraOpts ∧
        strStartsWith n "-" = false ∧ x = "--" ++ n) ∧
    (∀ names fname2, names ≠ [] →
      (∀ n ∈ names, strStartsWith n "--" = false) →
      optionNamesFlagPy names fname2 =
        names ++ ["--" ++ toConsoleName fname2]) ∧
    (∀ fname2, optionNamesFlagPy [] fname2 =
      ["--" ++ toConsoleName fname2]) ∧
    (∀ names fname2, names ⊆ optionNamesFlagPy names fname2) := by
  refine ⟨?_, ?_, ?_, ?_⟩
  · constructor
    · intro hx
      simp only [getConsoleNames, List.mem_map, List.mem_filter] at hx
      obtain ⟨n, ⟨hn, hpref⟩, hx⟩ := hx
      exact ⟨n, hn, by simpa using hpref, hx.symm⟩
    · intro ⟨n, hn, hpref, hx⟩
      simp only [getConsoleNames, List.mem_map, List.mem_filter]
      exact ⟨n, ⟨hn, by simpa using hpref⟩, hx.symm⟩
  · intro names fname2 hne hall
    have hie : names.isEmpty = false := by
      cases names with
      | nil => exact absurd rfl hne
      | cons a l => rfl
    have hallb : names.all (fun n => !strStartsWith n "--") = true := by
      rw [List.all_eq_true]
      intro n hn
      rw [hall n hn]
      rfl
    rw [optionNamesFlagPy, hie, hallb]
    rfl
  · intro fname2
    rfl
  · intro names fname2
    rw [optionNamesFlagPy]
    cases hie : names.isEmpty with
    | true =>
      intro a ha
      rw [List.isEmpty_iff] at hie
      rw [hie] at ha
      cases ha
    | false =>
      cases names.all (fun n => !strStartsWith n "--") with
      | true =>
        simp only [if_false, if_true, Bool.false_eq_true]
        exact List.subset_append_left names _
      | false =>
        simp only [if_false, Bool.false_eq_true]
        exact List.Subset.refl names

/-- Witness for C8: a flag named `root` with supplied name `root` and extra
alias `--root-path` registers exactly `--root` (the dash-prefixed alias is
dropped); the `argument/` variants keep `-v` and append `--verbose`. -/
theorem C8_console_names_witness :
    ("--root" ∈ getConsoleNames ["root"] ["--root-path"] "root" ↔
      ∃ n, n ∈ (if (["root"] : List String).isEmpty then
          [toConsoleName "root"] else ["root"]) ++ ["--root-path"] ∧
        strStartsWith n "-" = false ∧ "--root" = "--" ++ n) ∧
    (optionNamesFlagPy ["-v"] "verbose" = ["-v", "--verbose"]) ∧
    (optionNamesFlagPy [] "verbose" = ["--verbose"]) :=
  have h := C8_console_names ["root"] ["--root-path"] "root" "--root"
  ⟨h.1,
   by
    have := h.2.1 ["-v"] "verbose" (by decide) (by decide)
    simpa using this,
   h.2.2.1 "verbose"⟩

end Pyars
